import Mathlib

/-!
Verification of the flight-search core (result filter engine, price trend
aggregator, per-date price fetch, search orchestrator) against its
natural-language specification.

Embedding conventions:
- JavaScript numbers that can be NaN (results of parseFloat on a price
  string) are modelled by the type JNum: either nan or an exact rational.
  Decimal price strings are idealised as exact rationals.
- Timestamps (the parsed departure.at values) are modelled as minutes on a
  linear clock; one calendar day is 1440 minutes, and the formatted
  yyyy-MM-dd calendar date of a timestamp t is the day index t / 1440.
  Time-zone/DST effects are outside the model.
- The external HTTP source is modelled by oracles: a fetch oracle for the
  per-date gap-fill requests, and a response trace for getPriceForDate.
- Asynchronous batching is modelled by extracting the schedule of events
  (batches of requests, inter-batch pauses) that the gap-fill loop emits,
  in program order.
-/

/-- A JavaScript number arising from parseFloat of a price string:
either NaN (unparseable) or an exact rational value. -/
inductive JNum where
  | nan : JNum
  | num (q : ℚ) : JNum
deriving DecidableEq, Repr

namespace JNum

/-- JavaScript addition: NaN is absorbing. -/
def add : JNum → JNum → JNum
  | nan, _ => nan
  | _, nan => nan
  | num a, num b => num (a + b)

/-- JavaScript division by an integer count (count is positive at every
use site; division by zero is ℚ-junk, unreachable). NaN propagates. -/
def divN : JNum → ℕ → JNum
  | nan, _ => nan
  | num a, n => num (a / (n : ℚ))

/-- JavaScript Math.round as a rational: floor (q + 1/2). -/
def roundQ (q : ℚ) : ℚ := (⌊q + 1/2⌋ : ℤ)

/-- JavaScript Math.round on a possibly-NaN number: Math.round(NaN) = NaN. -/
def round : JNum → JNum
  | nan => nan
  | num q => num (roundQ q)

/-- The JavaScript comparison (x > m) used by the price filter:
false when x is NaN. -/
def gt : JNum → ℚ → Bool
  | nan, _ => false
  | num a, m => decide (a > m)

/-- JavaScript Math.min of two numbers: NaN is absorbing. -/
def minJ : JNum → JNum → JNum
  | nan, _ => nan
  | _, nan => nan
  | num a, num b => num (min a b)

end JNum

/-- One physical flight leg (src/types/flight.ts, Segment). Only the
fields the verified functions read are carried: the parsed departure.at
timestamp (minutes) and numberOfStops. -/
structure Segment where
  departureAt : ℕ
  numberOfStops : ℕ
deriving DecidableEq, Repr

/-- One directional trip (src/types/flight.ts, Itinerary). -/
structure Itinerary where
  segments : List Segment
deriving DecidableEq, Repr

/-- The price record of an offer: total is the parseFloat reading of the
price.total string (nan when unparseable). -/
structure Price where
  total : JNum
  currency : String
deriving DecidableEq, Repr

/-- A flight offer (src/types/flight.ts, Flight). -/
structure Flight where
  id : String
  price : Price
  itineraries : List Itinerary
  validatingAirlineCodes : List String
deriving DecidableEq, Repr

/-- The filter specification (src/types/flight.ts, Filters):
none models null (no constraint), airlines = [] models no constraint. -/
structure Filters where
  stops : Option ℕ
  maxPrice : Option ℚ
  airlines : List String
deriving DecidableEq, Repr

/-- One point of the price series (src/types/flight.ts, PriceDataPoint):
date is a calendar-day index, price none models null. -/
structure PriceDataPoint where
  date : ℕ
  price : Option JNum
  count : ℕ
deriving DecidableEq, Repr

/-- The search parameters (src/types/flight.ts, SearchParams); dates as
day indices. -/
structure SearchParams where
  origin : String
  destination : String
  departureDate : ℕ
  returnDate : Option ℕ
  adults : ℕ
deriving DecidableEq, Repr

/-! ### Result filter engine: filterFlights (src/utils/flightUtils.ts 5-40) -/

/-- Math.max over an empty spread is -Infinity; none models -Infinity. -/
def optMax : Option ℕ → Option ℕ → Option ℕ
  | none, b => b
  | a, none => a
  | some x, some y => some (Nat.max x y)

/-- Math.max(...itinerary.segments.map(seg => seg.numberOfStops)). -/
def itinMaxStops (it : Itinerary) : Option ℕ :=
  (it.segments.map (fun s => some s.numberOfStops)).foldl optMax none

/-- The maximum stop count across all segments of all itineraries
(flightUtils.ts 9-13). -/
def maxStops (fl : Flight) : Option ℕ :=
  (fl.itineraries.map itinMaxStops).foldl optMax none

/-- The stops block (flightUtils.ts 8-17): true means the early return
false is taken. -/
def stopsReject (filters : Filters) (fl : Flight) : Bool :=
  match filters.stops with
  | none => false
  | some s => decide (maxStops fl ≠ some s)

/-- The max-price block (flightUtils.ts 20-25): the test is
parseFloat(total) > maxPrice, which is false when the parse is NaN. -/
def priceReject (filters : Filters) (fl : Flight) : Bool :=
  match filters.maxPrice with
  | none => false
  | some m => JNum.gt fl.price.total m

/-- The airlines block (flightUtils.ts 28-36). -/
def airlinesReject (filters : Filters) (fl : Flight) : Bool :=
  if filters.airlines.length > 0 then
    !(fl.validatingAirlineCodes.any (fun a => filters.airlines.contains a))
  else false

/-- The filter callback (flightUtils.ts 6-38): the three early-return
blocks compose to a conjunction. -/
def flightPasses (filters : Filters) (fl : Flight) : Bool :=
  !stopsReject filters fl && !priceReject filters fl && !airlinesReject filters fl

/-- filterFlights (flightUtils.ts 5-40): Array.prototype.filter. -/
def filterFlights (flights : List Flight) (filters : Filters) : List Flight :=
  flights.filter (flightPasses filters)

/-- The retention predicate as the specification words it (spec section 4.1):
maximum stop count equals spec.stops exactly; total price at most
maxPrice (stated for offers whose total parses; the NaN case is the
subject of claim C10); some validating code in the airline set. -/
def claimKeeps (spec : Filters) (fl : Flight) : Bool :=
  (match spec.stops with
   | none => true
   | some s => decide (maxStops fl = some s)) &&
  (match spec.maxPrice with
   | none => true
   | some m =>
     match fl.price.total with
     | JNum.num q => decide (q ≤ m)
     | JNum.nan => false) &&
  (match spec.airlines with
   | [] => true
   | _ :: _ => fl.validatingAirlineCodes.any (fun a => spec.airlines.contains a))

/-- C5: with the no-constraint spec every flight passes. -/
theorem filterFlights_noConstraint_id (flights : List Flight) :
    filterFlights flights { stops := none, maxPrice := none, airlines := [] } = flights := by
  unfold filterFlights
  apply List.filter_eq_self.mpr
  intro fl _
  simp [flightPasses, stopsReject, priceReject, airlinesReject]

/-- C10: an offer whose price.total does not parse (NaN) is never excluded
by the price predicate, because the JavaScript comparison NaN > maxPrice is
false; with the stops and airline blocks passing, the offer is retained
whatever the ceiling. -/
theorem nan_price_retained (flights : List Flight) (spec : Filters) (fl : Flight) (m : ℚ)
    (hm : spec.maxPrice = some m) (hnan : fl.price.total = JNum.nan)
    (hstops : stopsReject spec fl = false) (hair : airlinesReject spec fl = false)
    (hmem : fl ∈ flights) :
    priceReject spec fl = false ∧ fl ∈ filterFlights flights spec := by
  have hpr : priceReject spec fl = false := by
    simp [priceReject, hm, hnan, JNum.gt]
  refine ⟨hpr, ?_⟩
  unfold filterFlights
  rw [List.mem_filter]
  exact ⟨hmem, by simp [flightPasses, hpr, hstops, hair]⟩

/-- Witness for C10: a concrete offer with an unparseable total, a ceiling
of 0, passing stops and airline blocks, is retained. -/
theorem nan_price_retained_witness :
    priceReject { stops := none, maxPrice := some 0, airlines := [] }
        { id := "X", price := { total := JNum.nan, currency := "USD" },
          itineraries := [{ segments := [{ departureAt := 0, numberOfStops := 0 }] }],
          validatingAirlineCodes := ["AA"] } = false ∧
      { id := "X", price := { total := JNum.nan, currency := "USD" },
        itineraries := [{ segments := [{ departureAt := 0, numberOfStops := 0 }] }],
        validatingAirlineCodes := ["AA"] } ∈
        filterFlights
          [{ id := "X", price := { total := JNum.nan, currency := "USD" },
             itineraries := [{ segments := [{ departureAt := 0, numberOfStops := 0 }] }],
             validatingAirlineCodes := ["AA"] }]
          { stops := none, maxPrice := some 0, airlines := [] } :=
  nan_price_retained _ _ _ 0 rfl rfl (by decide) (by decide) (List.mem_singleton.mpr rfl)

/-- Pointwise agreement of the source predicate with the spec-worded
predicate, for an offer whose total parses. -/
theorem flightPasses_eq_claimKeeps (spec : Filters) (fl : Flight)
    (hnum : fl.price.total ≠ JNum.nan) :
    flightPasses spec fl = claimKeeps spec fl := by
  unfold flightPasses claimKeeps
  congr 1
  · congr 1
    · unfold stopsReject
      cases spec.stops with
      | none => simp
      | some s => simp [decide_not]
    · unfold priceReject
      cases hmp : spec.maxPrice with
      | none => simp
      | some m =>
        cases hq : fl.price.total with
        | nan => exact absurd hq hnum
        | num q =>
          simp only [JNum.gt]
          rw [← decide_not]
          simp [not_le]
  · unfold airlinesReject
    cases spec.airlines with
    | nil => simp
    | cons a rest => simp

/-- C4: for offer lists whose totals all parse, filterFlights is exactly
the order-preserving subsequence of the offers satisfying the three
spec predicates (exact stop count, inclusive price ceiling, airline
membership); in particular the output is a sublist of the input, so no
offer is duplicated or transformed. -/
theorem filterFlights_is_spec_filter (flights : List Flight) (spec : Filters)
    (hnum : ∀ fl ∈ flights, fl.price.total ≠ JNum.nan) :
    filterFlights flights spec = flights.filter (claimKeeps spec) ∧
      List.Sublist (filterFlights flights spec) flights := by
  constructor
  · unfold filterFlights
    exact List.filter_congr (fun fl h => flightPasses_eq_claimKeeps spec fl (hnum fl h))
  · exact List.filter_sublist flights

/-- A concrete non-stop offer priced 100. -/
def sampleA : Flight :=
  { id := "A", price := { total := JNum.num 100, currency := "USD" },
    itineraries := [{ segments := [{ departureAt := 0, numberOfStops := 0 }] }],
    validatingAirlineCodes := ["AA"] }

/-- A concrete one-stop offer priced 300. -/
def sampleB : Flight :=
  { id := "B", price := { total := JNum.num 300, currency := "USD" },
    itineraries := [{ segments := [{ departureAt := 0, numberOfStops := 1 }] }],
    validatingAirlineCodes := ["DL"] }

/-- A price-ceiling-only filter specification. -/
def sampleSpec : Filters := { stops := none, maxPrice := some 200, airlines := [] }

/-- Witness for C4 at a concrete input: one offer passing and one failing
the price ceiling. -/
theorem filterFlights_is_spec_filter_witness :
    filterFlights [sampleA, sampleB] sampleSpec =
        List.filter (claimKeeps sampleSpec) [sampleA, sampleB] ∧
      List.Sublist (filterFlights [sampleA, sampleB] sampleSpec) [sampleA, sampleB] :=
  filterFlights_is_spec_filter [sampleA, sampleB] sampleSpec (by decide)

/-! ### Price trend aggregator: extractPriceData (src/utils/flightUtils.ts 42-124) -/

/-- Minutes in one calendar day; the yyyy-MM-dd date of a timestamp t is
the day index t / 1440. -/
def dayOf (t : ℕ) : ℕ := t / 1440

/-- The parsed departure.at of flight.itineraries[0].segments[0]
(flightUtils.ts 54, 65). The source would crash on an offer without an
itinerary or segment; the model is total with 0 there, and every use in
the aggregator goes through this same accessor. -/
def firstDepartureAt (fl : Flight) : ℕ :=
  match fl.itineraries with
  | it :: _ =>
    match it.segments with
    | s :: _ => s.departureAt
    | [] => 0
  | [] => 0

/-- The yyyy-MM-dd grouping key of an offer (flightUtils.ts 54). -/
def flightDate (fl : Flight) : ℕ := dayOf (firstDepartureAt fl)

/-- The body of the grouping forEach (flightUtils.ts 52-61): read the
existing entry (or total 0, count 0), store total + price and count + 1
under the offer's date key. -/
def priceMapStep (m : ℕ → Option (JNum × ℕ)) (fl : Flight) : ℕ → Option (JNum × ℕ) :=
  let price := fl.price.total
  let date := flightDate fl
  let existing := (m date).getD (JNum.num 0, 0)
  fun d => if d = date then some (JNum.add existing.1 price, existing.2 + 1) else m d

/-- The Map built by the grouping pass (flightUtils.ts 51-61): for each
date the running NaN-aware sum of parsed totals and the offer count. -/
def priceMapOf (flights : List Flight) : ℕ → Option (JNum × ℕ) :=
  flights.foldl priceMapStep (fun _ => none)

/-- Math.min over the outbound departure timestamps (flightUtils.ts 67). -/
def earliestOf (f : Flight) (fs : List Flight) : ℕ :=
  fs.foldl (fun a fl => Nat.min a (firstDepartureAt fl)) (firstDepartureAt f)

/-- Math.max over the outbound departure timestamps (flightUtils.ts 68). -/
def latestOf (f : Flight) (fs : List Flight) : ℕ :=
  fs.foldl (fun a fl => Nat.max a (firstDepartureAt fl)) (firstDepartureAt f)

/-- The PriceDataPoint pushed for the iteration at timestamp t
(flightUtils.ts 76-83): average rounded when the date has offers,
otherwise null price and count 0. -/
def mkPoint (pm : ℕ → Option (JNum × ℕ)) (t : ℕ) : PriceDataPoint :=
  { date := dayOf t,
    price :=
      match pm (dayOf t) with
      | some e => some ((JNum.divN e.1 e.2).round)
      | none => none,
    count :=
      match pm (dayOf t) with
      | some e => e.2
      | none => 0 }

/-- The while loop (flightUtils.ts 73-86): one point per iteration,
stepping the timestamp by one day while it is at most endD. -/
def buildLoop (pm : ℕ → Option (JNum × ℕ)) (cur endD : ℕ) : List PriceDataPoint :=
  if cur ≤ endD then mkPoint pm cur :: buildLoop pm (cur + 1440) endD else []
termination_by endD + 1 - cur
decreasing_by omega

/-- Steps A and B (flightUtils.ts 50-86): grouping, range construction
from min timestamp to max timestamp + 5 days, point construction. -/
def rangePoints (flights : List Flight) : List PriceDataPoint :=
  match flights with
  | [] => []
  | f :: fs => buildLoop (priceMapOf (f :: fs)) (earliestOf f fs) (latestOf f fs + 5 * 1440)

/-- Outcome of one gap-fill request against the external source:
a returned minimum price (possibly null, exceptionally NaN), or a
thrown error. -/
inductive FetchResult where
  | ok (price : Option JNum)
  | thrown
deriving DecidableEq, Repr

/-- The external per-date price fetch as an oracle over
(origin, destination, date, adults). -/
def SearchFetch : Type := String → String → ℕ → ℕ → FetchResult

/-- The datesToFetch list (flightUtils.ts 90-92): the gap points with
their indices (price === null). -/
def datesToFetch (pts : List PriceDataPoint) : List (ℕ × PriceDataPoint) :=
  pts.enum.filter (fun ip => ip.2.price.isNone)

/-- The body of one gap-fill request (flightUtils.ts 98-113): on a
non-null price, write round(price) and count 1 at the captured index;
a null price or a thrown error leaves the array untouched (the catch
swallows the error). -/
def fetchStep (fetch : SearchFetch) (sp : SearchParams)
    (acc : List PriceDataPoint) (ip : ℕ × PriceDataPoint) : List PriceDataPoint :=
  match fetch sp.origin sp.destination ip.2.date sp.adults with
  | FetchResult.ok (some v) => acc.set ip.1 { date := ip.2.date, price := some v.round, count := 1 }
  | FetchResult.ok none => acc
  | FetchResult.thrown => acc

/-- The whole gap-fill pass (flightUtils.ts 94-120): every request of
every batch settles and writes its own slot; batching affects only the
schedule (modelled separately), not the resulting array. -/
def gapFill (fetch : SearchFetch) (sp : SearchParams)
    (pts : List PriceDataPoint) : List PriceDataPoint :=
  (datesToFetch pts).foldl (fetchStep fetch sp) pts

/-- extractPriceData (flightUtils.ts 42-124): early return on an empty
offer list, Steps A and B, then gap fill only when search params are
supplied. -/
def extractPriceData (flights : List Flight) (searchParams : Option SearchParams)
    (fetch : SearchFetch) : List PriceDataPoint :=
  if flights = [] then []
  else
    let allDates := rangePoints flights
    match searchParams with
    | none => allDates
    | some sp => gapFill fetch sp allDates

/-- The per-point effect of the gap-fill pass. -/
def applyFetch (fetch : SearchFetch) (sp : SearchParams) (p : PriceDataPoint) : PriceDataPoint :=
  if p.price.isNone then
    match fetch sp.origin sp.destination p.date sp.adults with
    | FetchResult.ok (some v) => { date := p.date, price := some v.round, count := 1 }
    | FetchResult.ok none => p
    | FetchResult.thrown => p
  else p

/-- The dates the gap-fill pass requests, in order (flightUtils.ts 90-92). -/
def gapDates (pts : List PriceDataPoint) : List ℕ :=
  (datesToFetch pts).map (fun ip => ip.2.date)

/-- The dates extractPriceData fetches: none without search params, none
on an empty offer list (the early return precedes any fetch). -/
def fetchedDates (flights : List Flight) (searchParams : Option SearchParams) : List ℕ :=
  if flights = [] then []
  else
    match searchParams with
    | none => []
    | some _ => gapDates (rangePoints flights)

/-- An observable event of the gap-fill loop: a batch of concurrent
requests awaited together, or an inter-batch pause in milliseconds. -/
inductive BatchEvent where
  | batch (dates : List ℕ)
  | pause (ms : ℕ)
deriving DecidableEq, Repr

/-- The slices datesToFetch.slice(i, i + 5) taken by the loop
(flightUtils.ts 95-96). -/
def chunksOf5 {α : Type} (l : List α) : List (List α) :=
  match l with
  | [] => []
  | x :: xs => (x :: xs).take 5 :: chunksOf5 ((x :: xs).drop 5)
termination_by l.length
decreasing_by
  simp only [List.length_drop, List.length_cons]
  omega

/-- The event trace of the gap-fill loop (flightUtils.ts 95-120): each
iteration awaits one batch, then pauses 200ms only when i + 5 <
datesToFetch.length, that is only when another batch follows. -/
def gapFillSchedule (l : List ℕ) : List BatchEvent :=
  if h : l = [] then []
  else
    BatchEvent.batch (l.take 5) ::
      (if l.drop 5 = [] then [] else BatchEvent.pause 200 :: gapFillSchedule (l.drop 5))
termination_by l.length
decreasing_by
  simp only [List.length_drop]
  have := List.length_pos.mpr h
  omega

/-! ### Helper lemmas on the aggregator -/

/-- Folding a filtered list equals folding the full list with a guard. -/
theorem foldl_filter_guard {α β : Type} (p : α → Bool) (f : β → α → β)
    (l : List α) (init : β) :
    (l.filter p).foldl f init =
      l.foldl (fun acc x => if p x then f acc x else acc) init := by
  induction l generalizing init with
  | nil => rfl
  | cons x xs ih =>
    by_cases h : p x <;> simp [List.filter_cons, h, ih]

/-- Number of iterations the range loop makes from cur to endD. -/
def iterCount (cur endD : ℕ) : ℕ :=
  if cur ≤ endD then (endD - cur) / 1440 + 1 else 0

/-- Closed form of the range loop: the i-th point is built at timestamp
cur + 1440 i. -/
theorem buildLoop_closed (pm : ℕ → Option (JNum × ℕ)) (cur endD : ℕ) :
    buildLoop pm cur endD =
      (List.range (iterCount cur endD)).map (fun i => mkPoint pm (cur + 1440 * i)) := by
  induction cur, endD using buildLoop.induct pm with
  | case1 cur endD h ih =>
    rw [buildLoop, if_pos h, ih]
    have hcnt : iterCount cur endD = iterCount (cur + 1440) endD + 1 := by
      unfold iterCount
      by_cases h2 : cur + 1440 ≤ endD
      · rw [if_pos h, if_pos h2]
        omega
      · rw [if_pos h, if_neg h2]
        omega
    rw [hcnt, List.range_succ_eq_map, List.map_cons, List.map_map]
    have hhead : mkPoint pm (cur + 1440 * 0) = mkPoint pm cur := by norm_num
    have htail :
        List.map ((fun i => mkPoint pm (cur + 1440 * i)) ∘ Nat.succ)
            (List.range (iterCount (cur + 1440) endD)) =
          List.map (fun i => mkPoint pm (cur + 1440 + 1440 * i))
            (List.range (iterCount (cur + 1440) endD)) := by
      apply List.map_congr_left
      intro i _
      simp only [Function.comp_apply]
      congr 1
      omega
    rw [hhead, htail]
  | case2 cur endD h =>
    rw [buildLoop, if_neg h]
    unfold iterCount
    rw [if_neg h]
    simp

/-- The running minimum of departure timestamps never exceeds its seed. -/
theorem foldMin_le_init (l : List Flight) :
    ∀ a : ℕ, l.foldl (fun x fl => Nat.min x (firstDepartureAt fl)) a ≤ a := by
  induction l with
  | nil => intro a; simp
  | cons x xs ih =>
    intro a
    simp only [List.foldl_cons]
    exact le_trans (ih _) (Nat.min_le_left _ _)

/-- The running minimum is at most every listed departure timestamp. -/
theorem foldMin_le_mem (l : List Flight) :
    ∀ (a : ℕ) (fl : Flight), fl ∈ l →
      l.foldl (fun x fl => Nat.min x (firstDepartureAt fl)) a ≤ firstDepartureAt fl := by
  induction l with
  | nil => intro a fl h; cases h
  | cons x xs ih =>
    intro a fl h
    simp only [List.foldl_cons]
    rcases List.mem_cons.mp h with rfl | hmem
    · exact le_trans (foldMin_le_init xs _) (Nat.min_le_right _ _)
    · exact ih _ _ hmem

/-- The running maximum of departure timestamps is at least its seed. -/
theorem init_le_foldMax (l : List Flight) :
    ∀ a : ℕ, a ≤ l.foldl (fun x fl => Nat.max x (firstDepartureAt fl)) a := by
  induction l with
  | nil => intro a; simp
  | cons x xs ih =>
    intro a
    simp only [List.foldl_cons]
    exact le_trans (Nat.le_max_left _ _) (ih _)

/-- Every listed departure timestamp is at most the running maximum. -/
theorem mem_le_foldMax (l : List Flight) :
    ∀ (a : ℕ) (fl : Flight), fl ∈ l →
      firstDepartureAt fl ≤ l.foldl (fun x fl => Nat.max x (firstDepartureAt fl)) a := by
  induction l with
  | nil => intro a fl h; cases h
  | cons x xs ih =>
    intro a fl h
    simp only [List.foldl_cons]
    rcases List.mem_cons.mp h with rfl | hmem
    · exact le_trans (Nat.le_max_right _ _) (init_le_foldMax xs _)
    · exact ih _ _ hmem

/-- The earliest departure timestamp is at most the latest. -/
theorem earliest_le_latest (f : Flight) (fs : List Flight) :
    earliestOf f fs ≤ latestOf f fs := by
  unfold earliestOf latestOf
  have aux : ∀ (l : List Flight) (a b : ℕ), a ≤ b →
      l.foldl (fun x fl => Nat.min x (firstDepartureAt fl)) a ≤
        l.foldl (fun x fl => Nat.max x (firstDepartureAt fl)) b := by
    intro l
    induction l with
    | nil => intro a b h; simpa using h
    | cons x xs ih =>
      intro a b h
      simp only [List.foldl_cons]
      exact ih _ _ (le_trans (Nat.min_le_left _ _) (le_trans h (Nat.le_max_left _ _)))
  exact aux fs _ _ le_rfl

/-- Bounds of every offer of the list: its departure timestamp lies
between the computed earliest and latest. -/
theorem departure_bounds (f : Flight) (fs : List Flight) (fl : Flight)
    (h : fl ∈ f :: fs) :
    earliestOf f fs ≤ firstDepartureAt fl ∧ firstDepartureAt fl ≤ latestOf f fs := by
  unfold earliestOf latestOf
  rcases List.mem_cons.mp h with rfl | hmem
  · exact ⟨foldMin_le_init fs _, init_le_foldMax fs _⟩
  · exact ⟨foldMin_le_mem fs _ fl hmem, mem_le_foldMax fs _ fl hmem⟩

/-- The index-writing gap-fill fold acts pointwise: folding the enumerated
gap entries over done ++ rest rewrites exactly the null-priced points of
rest in place. -/
theorem gapFill_enum_aux (fetch : SearchFetch) (sp : SearchParams) :
    ∀ rest done : List PriceDataPoint,
      (List.enumFrom done.length rest).foldl
          (fun acc ip => if ip.2.price.isNone then fetchStep fetch sp acc ip else acc)
          (done ++ rest) =
        done ++ rest.map (applyFetch fetch sp) := by
  intro rest
  induction rest with
  | nil => intro done; simp
  | cons p ps ih =>
    intro done
    rw [List.enumFrom_cons, List.foldl_cons]
    have hconn : ∀ q : PriceDataPoint, done ++ q :: ps = (done ++ [q]) ++ ps := by
      intro q
      simp
    have hlen : ∀ q : PriceDataPoint, (done ++ [q]).length = done.length + 1 := by
      intro q
      simp
    by_cases hnull : p.price.isNone
    · rw [if_pos hnull]
      cases hf : fetch sp.origin sp.destination p.date sp.adults with
      | ok op =>
        cases op with
        | some v =>
          have hstep : fetchStep fetch sp (done ++ p :: ps) (done.length, p) =
              done ++ { date := p.date, price := some v.round, count := 1 } :: ps := by
            simp only [fetchStep, hf]
            rw [List.set_append_right _ _ (le_refl done.length)]
            simp
          rw [hstep, hconn, ← hlen { date := p.date, price := some v.round, count := 1 }, ih]
          simp [applyFetch, hnull, hf]
        | none =>
          have hstep : fetchStep fetch sp (done ++ p :: ps) (done.length, p) =
              done ++ p :: ps := by
            simp only [fetchStep, hf]
          rw [hstep, hconn p, ← hlen p, ih]
          simp [applyFetch, hnull, hf]
      | thrown =>
        have hstep : fetchStep fetch sp (done ++ p :: ps) (done.length, p) =
            done ++ p :: ps := by
          simp only [fetchStep, hf]
        rw [hstep, hconn p, ← hlen p, ih]
        simp [applyFetch, hnull, hf]
    · rw [if_neg hnull]
      rw [hconn p, ← hlen p, ih]
      simp [applyFetch, hnull]

/-- The gap-fill pass is the pointwise map of applyFetch: each request
writes only its own slot, independently of its siblings. -/
theorem gapFill_eq_map (fetch : SearchFetch) (sp : SearchParams)
    (pts : List PriceDataPoint) :
    gapFill fetch sp pts = pts.map (applyFetch fetch sp) := by
  unfold gapFill datesToFetch
  rw [foldl_filter_guard]
  have h := gapFill_enum_aux fetch sp pts []
  simpa [List.enum] using h

/-- Gap fill never changes the dates of the series. -/
theorem gapFill_dates (fetch : SearchFetch) (sp : SearchParams)
    (pts : List PriceDataPoint) :
    (gapFill fetch sp pts).map (fun p => p.date) = pts.map (fun p => p.date) := by
  rw [gapFill_eq_map, List.map_map]
  apply List.map_congr_left
  intro p _
  simp only [Function.comp_apply]
  unfold applyFetch
  by_cases h : p.price.isNone
  · rw [if_pos h]
    cases hf : fetch sp.origin sp.destination p.date sp.adults with
    | ok op => cases op <;> simp
    | thrown => simp
  · rw [if_neg h]

/-- C1 (amended): empty input gives an empty series and no fetch; for a
non-empty input the series has exactly
(latest departure timestamp - earliest departure timestamp) / 1 day + 6
entries, whose dates are the contiguous, strictly ascending calendar days
starting at the earliest departure's calendar date. When every offer
departs at the same time of day this count equals the calendar-day
difference + 6 of the original claim. -/
theorem extractPriceData_range_shape (sp : Option SearchParams) (fetch : SearchFetch)
    (f : Flight) (fs : List Flight) :
    extractPriceData [] sp fetch = [] ∧
      fetchedDates [] sp = [] ∧
      (extractPriceData (f :: fs) sp fetch).map (fun p => p.date) =
        (List.range ((latestOf f fs - earliestOf f fs) / 1440 + 6)).map
          (fun i => dayOf (earliestOf f fs) + i) ∧
      (extractPriceData (f :: fs) sp fetch).length =
        (latestOf f fs - earliestOf f fs) / 1440 + 6 := by
  have hel := earliest_le_latest f fs
  have hcnt : iterCount (earliestOf f fs) (latestOf f fs + 5 * 1440) =
      (latestOf f fs - earliestOf f fs) / 1440 + 6 := by
    unfold iterCount
    rw [if_pos (by omega)]
    omega
  have hrp : (rangePoints (f :: fs)).map (fun p => p.date) =
      (List.range ((latestOf f fs - earliestOf f fs) / 1440 + 6)).map
        (fun i => dayOf (earliestOf f fs) + i) := by
    have hr : rangePoints (f :: fs) =
        buildLoop (priceMapOf (f :: fs)) (earliestOf f fs) (latestOf f fs + 5 * 1440) := rfl
    rw [hr, buildLoop_closed, hcnt, List.map_map]
    apply List.map_congr_left
    intro i _
    simp only [Function.comp_apply, mkPoint, dayOf]
    omega
  have hdates : (extractPriceData (f :: fs) sp fetch).map (fun p => p.date) =
      (List.range ((latestOf f fs - earliestOf f fs) / 1440 + 6)).map
        (fun i => dayOf (earliestOf f fs) + i) := by
    unfold extractPriceData
    rw [if_neg (by simp)]
    cases sp with
    | none => exact hrp
    | some s =>
      show (gapFill fetch s (rangePoints (f :: fs))).map (fun p => p.date) = _
      rw [gapFill_dates]
      exact hrp
  refine ⟨by simp [extractPriceData], by simp [fetchedDates], hdates, ?_⟩
  have hlen := congrArg List.length hdates
  simpa using hlen

/-- An offer departing on calendar day 1 at 23:00 (timestamp 2820). -/
def lateEveningOffer : Flight :=
  { id := "E", price := { total := JNum.num 100, currency := "USD" },
    itineraries := [{ segments := [{ departureAt := 2820, numberOfStops := 0 }] }],
    validatingAirlineCodes := ["AA"] }

/-- An offer departing on calendar day 3 at 01:00 (timestamp 4380). -/
def earlyMorningOffer : Flight :=
  { id := "M", price := { total := JNum.num 150, currency := "USD" },
    itineraries := [{ segments := [{ departureAt := 4380, numberOfStops := 0 }] }],
    validatingAirlineCodes := ["DL"] }

/-- A fetch oracle whose every request throws. -/
def failingFetch : SearchFetch := fun _ _ _ _ => FetchResult.thrown

/-- Counterexample to C1 as frozen: with departures day 1 at 23:00 and
day 3 at 01:00, the series has 7 entries, not the claimed
(3 - 1) + 6 = 8, and the day latest-date + 5 = 8 is absent. -/
theorem c1_counterexample :
    (extractPriceData [lateEveningOffer, earlyMorningOffer] none failingFetch).length = 7 ∧
      flightDate earlyMorningOffer - flightDate lateEveningOffer + 6 = 8 ∧
      ((extractPriceData [lateEveningOffer, earlyMorningOffer] none failingFetch).map
          (fun p => p.date)).contains (flightDate earlyMorningOffer + 5) = false := by
  have key : extractPriceData [lateEveningOffer, earlyMorningOffer] none failingFetch =
      (List.range (iterCount (earliestOf lateEveningOffer [earlyMorningOffer])
          (latestOf lateEveningOffer [earlyMorningOffer] + 5 * 1440))).map
        (fun i => mkPoint (priceMapOf [lateEveningOffer, earlyMorningOffer])
          (earliestOf lateEveningOffer [earlyMorningOffer] + 1440 * i)) := by
    unfold extractPriceData
    rw [if_neg (by simp)]
    show rangePoints [lateEveningOffer, earlyMorningOffer] = _
    have hr : rangePoints [lateEveningOffer, earlyMorningOffer] =
        buildLoop (priceMapOf [lateEveningOffer, earlyMorningOffer])
          (earliestOf lateEveningOffer [earlyMorningOffer])
          (latestOf lateEveningOffer [earlyMorningOffer] + 5 * 1440) := rfl
    rw [hr, buildLoop_closed]
  refine ⟨?_, by decide, ?_⟩
  · rw [key]
    simp only [List.length_map, List.length_range]
    decide
  · rw [key]
    decide

/-- The offers grouped under date d: those whose first-segment departure
falls on calendar day d. -/
def groupAt (flights : List Flight) (d : ℕ) : List Flight :=
  flights.filter (fun fl => decide (flightDate fl = d))

/-- One grouping step at the pair level: add the parsed total, bump the
count. -/
def groupStep (a : JNum × ℕ) (fl : Flight) : JNum × ℕ :=
  (JNum.add a.1 fl.price.total, a.2 + 1)

/-- Lookup after folding the grouping step: the entry at d is the fold of
the offers dated d over the initial entry. -/
theorem priceMap_foldl_lookup (d : ℕ) :
    ∀ (flights : List Flight) (m : ℕ → Option (JNum × ℕ)),
      flights.foldl priceMapStep m d =
        if groupAt flights d = [] then m d
        else some ((groupAt flights d).foldl groupStep ((m d).getD (JNum.num 0, 0))) := by
  intro flights
  induction flights with
  | nil => intro m; simp [groupAt]
  | cons fl fls ih =>
    intro m
    rw [List.foldl_cons, ih]
    by_cases hd : flightDate fl = d
    · have hstepd : priceMapStep m fl d =
          some (groupStep ((m d).getD (JNum.num 0, 0)) fl) := by
        simp [priceMapStep, groupStep, hd, if_pos]
      have hfilter : groupAt (fl :: fls) d = fl :: groupAt fls d := by
        simp [groupAt, List.filter_cons, hd]
      rw [hfilter]
      by_cases hg : groupAt fls d = []
      · rw [if_pos hg, hstepd, if_neg (by simp), hg]
        simp
      · rw [if_neg hg, if_neg (by simp [hg])]
        rw [hstepd]
        simp
    · have hstepd : priceMapStep m fl d = m d := by
        simp only [priceMapStep]
        rw [if_neg (fun hdd => hd hdd.symm)]
      have hfilter : groupAt (fl :: fls) d = groupAt fls d := by
        simp [groupAt, List.filter_cons, hd]
      rw [hfilter, hstepd]

/-- The grouping map of the aggregator, read at date d. -/
theorem priceMapOf_lookup (flights : List Flight) (d : ℕ) :
    priceMapOf flights d =
      if groupAt flights d = [] then none
      else some ((groupAt flights d).foldl groupStep (JNum.num 0, 0)) := by
  unfold priceMapOf
  rw [priceMap_foldl_lookup]
  simp

/-- The pair fold splits into the sum fold and the length. -/
theorem groupStep_components :
    ∀ (g : List Flight) (a : JNum) (c : ℕ),
      g.foldl groupStep (a, c) =
        (g.foldl (fun x fl => JNum.add x fl.price.total) a, c + g.length) := by
  intro g
  induction g with
  | nil => intro a c; simp
  | cons fl fls ih =>
    intro a c
    rw [List.foldl_cons, List.foldl_cons]
    show List.foldl groupStep (JNum.add a fl.price.total, c + 1) fls = _
    rw [ih]
    simp only [List.length_cons]
    have hc : c + 1 + fls.length = c + (fls.length + 1) := by omega
    rw [hc]

/-- Folding JavaScript addition over parseable totals is rational
addition. -/
theorem foldl_add_num :
    ∀ (g : List Flight) (qs : List ℚ),
      g.map (fun fl => fl.price.total) = qs.map JNum.num →
      ∀ a : ℚ,
        g.foldl (fun x fl => JNum.add x fl.price.total) (JNum.num a) =
          JNum.num (a + qs.sum) := by
  intro g
  induction g with
  | nil =>
    intro qs hqs a
    cases qs with
    | nil => simp
    | cons q qt => simp at hqs
  | cons fl fls ih =>
    intro qs hqs a
    cases qs with
    | nil => simp at hqs
    | cons q qt =>
      simp only [List.map_cons, List.cons.injEq] at hqs
      obtain ⟨hq, hrest⟩ := hqs
      rw [List.foldl_cons]
      have hstep : JNum.add (JNum.num a) fl.price.total = JNum.num (a + q) := by
        rw [hq]
        rfl
      rw [hstep, ih qt hrest (a + q), List.sum_cons]
      congr 1
      ring

/-- applyFetch never changes the date of a point. -/
theorem applyFetch_date (fetch : SearchFetch) (sp : SearchParams) (p : PriceDataPoint) :
    (applyFetch fetch sp p).date = p.date := by
  unfold applyFetch
  by_cases h : p.price.isNone
  · rw [if_pos h]
    cases fetch sp.origin sp.destination p.date sp.adults with
    | ok op => cases op <;> simp
    | thrown => simp
  · rw [if_neg h]

/-- applyFetch leaves a point with a present price untouched. -/
theorem applyFetch_keeps (fetch : SearchFetch) (sp : SearchParams) (p : PriceDataPoint)
    (h : p.price.isNone = false) :
    applyFetch fetch sp p = p := by
  unfold applyFetch
  rw [h]
  simp

/-- C2: for every date with at least one offer (grouped by the calendar
date of the first segment of the first itinerary), the output point at
that date carries price round(sum of the group totals / group size) and
count = group size. -/
theorem extractPriceData_grouped_average (sp : Option SearchParams) (fetch : SearchFetch)
    (f : Flight) (fs : List Flight) (d : ℕ) (qs : List ℚ)
    (hne : groupAt (f :: fs) d ≠ [])
    (hqs : (groupAt (f :: fs) d).map (fun fl => fl.price.total) = qs.map JNum.num) :
    (∃ p ∈ extractPriceData (f :: fs) sp fetch, p.date = d) ∧
      ∀ p ∈ extractPriceData (f :: fs) sp fetch, p.date = d →
        p.count = (groupAt (f :: fs) d).length ∧
          p.price = some (JNum.num (JNum.roundQ (qs.sum / ((groupAt (f :: fs) d).length : ℚ)))) := by
  have hel := earliest_le_latest f fs
  have hcnt : iterCount (earliestOf f fs) (latestOf f fs + 5 * 1440) =
      (latestOf f fs - earliestOf f fs) / 1440 + 6 := by
    unfold iterCount
    rw [if_pos (by omega)]
    omega
  have hpm : priceMapOf (f :: fs) d =
      some (JNum.num qs.sum, (groupAt (f :: fs) d).length) := by
    rw [priceMapOf_lookup, if_neg hne, groupStep_components, foldl_add_num _ qs hqs 0]
    norm_num
  have hmk : ∀ t : ℕ, dayOf t = d →
      mkPoint (priceMapOf (f :: fs)) t =
        { date := d,
          price := some (JNum.num (JNum.roundQ (qs.sum / ((groupAt (f :: fs) d).length : ℚ)))),
          count := (groupAt (f :: fs) d).length } := by
    intro t ht
    unfold mkPoint
    rw [ht, hpm]
    simp [JNum.divN, JNum.round]
  have hclosed : rangePoints (f :: fs) =
      (List.range ((latestOf f fs - earliestOf f fs) / 1440 + 6)).map
        (fun i => mkPoint (priceMapOf (f :: fs)) (earliestOf f fs + 1440 * i)) := by
    have hrfl : rangePoints (f :: fs) =
        buildLoop (priceMapOf (f :: fs)) (earliestOf f fs) (latestOf f fs + 5 * 1440) := rfl
    rw [hrfl, buildLoop_closed, hcnt]
  obtain ⟨fl0, hfl0⟩ := List.exists_mem_of_ne_nil _ hne
  have hfl0' := List.mem_filter.mp hfl0
  have hfl0mem : fl0 ∈ f :: fs := hfl0'.1
  have hfl0d : flightDate fl0 = d := by
    have h := hfl0'.2
    simpa using h
  have hb := departure_bounds f fs fl0 hfl0mem
  have h3 : firstDepartureAt fl0 / 1440 = d := hfl0d
  have hi : ∃ i, i < (latestOf f fs - earliestOf f fs) / 1440 + 6 ∧
      dayOf (earliestOf f fs + 1440 * i) = d := by
    have h1 := hb.1
    have h2 := hb.2
    refine ⟨d - dayOf (earliestOf f fs), ?_, ?_⟩
    · unfold dayOf
      omega
    · unfold dayOf
      omega
  have hbase : (∃ p ∈ rangePoints (f :: fs), p.date = d) ∧
      ∀ p ∈ rangePoints (f :: fs), p.date = d →
        p = { date := d,
              price := some (JNum.num (JNum.roundQ (qs.sum / ((groupAt (f :: fs) d).length : ℚ)))),
              count := (groupAt (f :: fs) d).length } := by
    constructor
    · obtain ⟨i, hilt, hid⟩ := hi
      refine ⟨mkPoint (priceMapOf (f :: fs)) (earliestOf f fs + 1440 * i), ?_, ?_⟩
      · rw [hclosed]
        exact List.mem_map_of_mem _ (List.mem_range.mpr hilt)
      · rw [hmk _ hid]
    · intro p hp hpd
      rw [hclosed] at hp
      obtain ⟨i, hir, hpi⟩ := List.mem_map.mp hp
      have hdi : dayOf (earliestOf f fs + 1440 * i) = d := by
        rw [← hpd, ← hpi]
        rfl
      rw [← hpi, hmk _ hdi]
  cases sp with
  | none =>
    have hout : extractPriceData (f :: fs) none fetch = rangePoints (f :: fs) := by
      unfold extractPriceData
      rw [if_neg (by simp)]
    rw [hout]
    refine ⟨hbase.1, ?_⟩
    intro p hp hpd
    rw [hbase.2 p hp hpd]
    exact ⟨rfl, rfl⟩
  | some s =>
    have hout : extractPriceData (f :: fs) (some s) fetch =
        (rangePoints (f :: fs)).map (applyFetch fetch s) := by
      unfold extractPriceData
      rw [if_neg (by simp)]
      show gapFill fetch s (rangePoints (f :: fs)) = _
      exact gapFill_eq_map fetch s _
    rw [hout]
    constructor
    · obtain ⟨p, hp, hpd⟩ := hbase.1
      refine ⟨applyFetch fetch s p, List.mem_map_of_mem _ hp, ?_⟩
      rw [applyFetch_date]
      exact hpd
    · intro p hp hpd
      obtain ⟨p0, hp0, hpi⟩ := List.mem_map.mp hp
      have hp0d : p0.date = d := by
        rw [← hpd, ← hpi, applyFetch_date]
      have hp0P := hbase.2 p0 hp0 hp0d
      have hkeep : applyFetch fetch s p0 = p0 := by
        apply applyFetch_keeps
        rw [hp0P]
        rfl
      rw [← hpi, hkeep, hp0P]
      exact ⟨rfl, rfl⟩

/-- An offer on calendar day 1 (timestamp 1440) priced 100. -/
def day1Offer100 : Flight :=
  { id := "P", price := { total := JNum.num 100, currency := "USD" },
    itineraries := [{ segments := [{ departureAt := 1440, numberOfStops := 0 }] }],
    validatingAirlineCodes := ["AA"] }

/-- An offer on calendar day 1 (timestamp 1500) priced 200. -/
def day1Offer200 : Flight :=
  { id := "Q", price := { total := JNum.num 200, currency := "USD" },
    itineraries := [{ segments := [{ departureAt := 1500, numberOfStops := 0 }] }],
    validatingAirlineCodes := ["AA"] }

/-- Witness for C2: two offers on day 1 priced 100 and 200 yield the
point price round(300 / 2) with count 2. -/
theorem extractPriceData_grouped_average_witness :
    (∃ p ∈ extractPriceData [day1Offer100, day1Offer200] none failingFetch, p.date = 1) ∧
      ∀ p ∈ extractPriceData [day1Offer100, day1Offer200] none failingFetch, p.date = 1 →
        p.count = (groupAt [day1Offer100, day1Offer200] 1).length ∧
          p.price = some (JNum.num (JNum.roundQ (([100, 200] : List ℚ).sum /
            ((groupAt [day1Offer100, day1Offer200] 1).length : ℚ)))) :=
  extractPriceData_grouped_average none failingFetch day1Offer100 [day1Offer200] 1 [100, 200]
    (by decide) (by decide)

/-- C3: for every gap point (null price), a fetch returning a non-null
minimum price v turns the point into (round v, count 1); a null result or
a thrown error leaves it unchanged; and a gap-fill pass whose every
request throws returns the series unchanged (the catch swallows every
error, so nothing reaches the caller). -/
theorem gapFill_point_update (fetch : SearchFetch) (sp : SearchParams)
    (pts : List PriceDataPoint) (i : ℕ) (p : PriceDataPoint)
    (hp : pts[i]? = some p) (hnull : p.price = none) :
    (gapFill fetch sp pts).length = pts.length ∧
      gapFill (fun _ _ _ _ => FetchResult.thrown) sp pts = pts ∧
      (gapFill fetch sp pts)[i]? = some (
        match fetch sp.origin sp.destination p.date sp.adults with
        | FetchResult.ok (some v) => { date := p.date, price := some v.round, count := 1 }
        | FetchResult.ok none => p
        | FetchResult.thrown => p) := by
  refine ⟨?_, ?_, ?_⟩
  · rw [gapFill_eq_map]
    simp
  · rw [gapFill_eq_map]
    have hid : ∀ q ∈ pts, applyFetch (fun _ _ _ _ => FetchResult.thrown) sp q = q := by
      intro q _
      unfold applyFetch
      by_cases h : q.price.isNone
      · rw [if_pos h]
      · rw [if_neg h]
    rw [List.map_congr_left hid]
    simp
  · rw [gapFill_eq_map, List.getElem?_map, hp]
    cases hf : fetch sp.origin sp.destination p.date sp.adults with
    | ok op =>
      cases op with
      | some v => simp [applyFetch, hnull, hf]
      | none => simp [applyFetch, hnull, hf]
    | thrown => simp [applyFetch, hnull, hf]

/-- A gap point on day 9. -/
def gapPoint : PriceDataPoint := { date := 9, price := none, count := 0 }

/-- A fetch oracle answering price 7 for every request. -/
def happyFetch : SearchFetch := fun _ _ _ _ => FetchResult.ok (some (JNum.num 7))

/-- Concrete search parameters for the witnesses. -/
def sampleParams : SearchParams :=
  { origin := "JFK", destination := "LAX", departureDate := 0, returnDate := none, adults := 1 }

/-- Witness for C3 at a concrete gap point and fetch. -/
theorem gapFill_point_update_witness :
    (gapFill happyFetch sampleParams [gapPoint]).length = [gapPoint].length ∧
      gapFill (fun _ _ _ _ => FetchResult.thrown) sampleParams [gapPoint] = [gapPoint] ∧
      (gapFill happyFetch sampleParams [gapPoint])[0]? = some (
        match happyFetch sampleParams.origin sampleParams.destination gapPoint.date
            sampleParams.adults with
        | FetchResult.ok (some v) => { date := gapPoint.date, price := some v.round, count := 1 }
        | FetchResult.ok none => gapPoint
        | FetchResult.thrown => gapPoint) :=
  gapFill_point_update happyFetch sampleParams [gapPoint] 0 gapPoint rfl rfl

/-- One unfolding of the batch slicing. -/
theorem chunksOf5_cons {α : Type} (x : α) (xs : List α) :
    chunksOf5 (x :: xs) = (x :: xs).take 5 :: chunksOf5 ((x :: xs).drop 5) := by
  rw [chunksOf5]

/-- The batches concatenate back to the fetched dates, in order. -/
theorem chunksOf5_flatten {α : Type} (l : List α) : (chunksOf5 l).flatten = l := by
  induction l using chunksOf5.induct with
  | case1 => simp [chunksOf5]
  | case2 x xs ih =>
    rw [chunksOf5_cons, List.flatten_cons, ih]
    exact List.take_append_drop 5 (x :: xs)

/-- Every batch is non-empty and holds at most 5 requests. -/
theorem chunksOf5_mem {α : Type} (l : List α) :
    ∀ b ∈ chunksOf5 l, b ≠ [] ∧ b.length ≤ 5 := by
  induction l using chunksOf5.induct with
  | case1 =>
    intro b hb
    simp [chunksOf5] at hb
  | case2 x xs ih =>
    intro b hb
    rw [chunksOf5_cons] at hb
    rcases List.mem_cons.mp hb with rfl | hmem
    · refine ⟨by simp, ?_⟩
      simp [List.length_take]
    · exact ih b hmem

/-- The event trace is the batches separated by single 200ms pauses:
no pause before the first batch, none after the last. -/
theorem gapFillSchedule_eq (l : List ℕ) :
    gapFillSchedule l =
      List.intersperse (BatchEvent.pause 200) ((chunksOf5 l).map BatchEvent.batch) := by
  induction l using gapFillSchedule.induct with
  | case1 => simp [gapFillSchedule, chunksOf5]
  | case2 l h ih =>
    rw [gapFillSchedule, dif_neg h]
    by_cases hdrop : l.drop 5 = []
    · rw [if_pos hdrop]
      obtain ⟨x, xs, rfl⟩ := List.exists_cons_of_ne_nil h
      rw [chunksOf5_cons, hdrop]
      simp [chunksOf5, List.intersperse]
    · rw [if_neg hdrop, ih]
      obtain ⟨x, xs, rfl⟩ := List.exists_cons_of_ne_nil h
      rw [chunksOf5_cons]
      have hne : chunksOf5 ((x :: xs).drop 5) ≠ [] := by
        obtain ⟨y, ys, hys⟩ := List.exists_cons_of_ne_nil hdrop
        rw [hys, chunksOf5_cons]
        simp
      cases hc : chunksOf5 ((x :: xs).drop 5) with
      | nil => exact absurd hc hne
      | cons c cs => simp [List.intersperse]

/-- C6: the gap-fill loop fetches the gap dates in batches of at most 5,
in index order, waiting for a whole batch before the next, with one 200ms
pause between successive batches and none after the last; and the final
array is the independent pointwise update of the points, so one failing
request never aborts its siblings or its batch. -/
theorem gapFill_batch_schedule (pts : List PriceDataPoint) (fetch : SearchFetch)
    (sp : SearchParams) :
    gapFillSchedule (gapDates pts) =
        List.intersperse (BatchEvent.pause 200)
          ((chunksOf5 (gapDates pts)).map BatchEvent.batch) ∧
      (∀ b ∈ chunksOf5 (gapDates pts), b ≠ [] ∧ b.length ≤ 5) ∧
      (chunksOf5 (gapDates pts)).flatten = gapDates pts ∧
      gapFill fetch sp pts = pts.map (applyFetch fetch sp) :=
  ⟨gapFillSchedule_eq _, chunksOf5_mem _, chunksOf5_flatten _, gapFill_eq_map fetch sp pts⟩

/-! ### Per-date price fetch: getPriceForDate (src/services/amadeusApi.ts 116-158) -/

/-- One HTTP response of the flight-offers endpoint, as seen by
getPriceForDate: a success carrying the offers (each reduced to its
parsed total price), a 401, or any other failure. -/
inductive ApiResp where
  | success (offers : List JNum)
  | authFailure
  | otherFailure
deriving DecidableEq, Repr

/-- Math.min(...prices) (amadeusApi.ts 147-148); the [] case is
unreachable behind the emptiness check on line 143. -/
def minPrices : List JNum → JNum
  | [] => JNum.nan
  | p :: ps => ps.foldl JNum.minJ p

/-- getPriceForDate (amadeusApi.ts 116-158) over a trace of successive
responses, carrying the cached-token state: a success with no offers
returns null (line 143-145), otherwise the minimum total (147-148); a
non-401 failure is caught and returns null (150-153); a 401 clears the
token cache and retries, the next attempt re-authenticating (155-156).
An exhausted trace (none) models the diverging all-401 run. -/
def getPriceForDate (token : Option ℕ) (resps : List ApiResp) : Option (Option JNum) :=
  match resps with
  | [] => none
  | r :: rest =>
    match r with
    | ApiResp.success offers =>
      some (if offers.isEmpty then none else some (minPrices offers))
    | ApiResp.otherFailure => some none
    | ApiResp.authFailure => getPriceForDate none rest

/-- C7: no offers for the date yields null, never an error; a 401 is
retried transparently exactly once per failure, with the token cache
cleared so the retry re-authenticates, and the call then returns the
minimum of the returned totals (or null). -/
theorem getPriceForDate_behaviour (token : Option ℕ) (rest : List ApiResp)
    (offers : List JNum) (hne : offers ≠ []) :
    getPriceForDate token (ApiResp.success [] :: rest) = some none ∧
      getPriceForDate token (ApiResp.authFailure :: rest) = getPriceForDate none rest ∧
      getPriceForDate token (ApiResp.success offers :: rest) =
        some (some (minPrices offers)) := by
  refine ⟨rfl, rfl, ?_⟩
  show some (if offers.isEmpty then none else some (minPrices offers)) = _
  rw [if_neg (by simpa using hne)]

/-- Witness for C7: one 401 followed by a success with offers priced
8 and 3 returns min 3 after exactly one transparent retry. -/
theorem getPriceForDate_behaviour_witness :
    getPriceForDate (some 0) (ApiResp.success [] :: []) = some none ∧
      getPriceForDate (some 0) (ApiResp.authFailure :: []) = getPriceForDate none [] ∧
      getPriceForDate (some 0)
          (ApiResp.success [JNum.num 8, JNum.num 3] :: []) =
        some (some (minPrices [JNum.num 8, JNum.num 3])) :=
  getPriceForDate_behaviour (some 0) [] [JNum.num 8, JNum.num 3] (by decide)

/-! ### Search orchestrator: handleSearch (App.tsx, flightUtils.ts view 218-252) -/

/-- The orchestrator state: the React useState slots of App. -/
structure AppState where
  flights : List Flight
  loading : Bool
  error : Option String
  hasSearched : Bool
  searchParams : Option SearchParams
  priceData : List PriceDataPoint
  loadingPrices : Bool
  filters : Filters
deriving Repr

/-- handleSearch (App view 218-252) as a state transition, the external
search outcome supplied as an oracle: the thrown error is its message
string. The try around the context-aware aggregation never fires in the
model (extractPriceData is total), so the success path stores its
result; the catch path of searchFlights stores the message and clears
offers and series, then the finally clears loading. -/
def handleSearch (st : AppState) (params : SearchParams)
    (searchResult : Except String (List Flight)) (fetch : SearchFetch) : AppState :=
  let st1 : AppState :=
    { st with
      loading := true
      error := none
      hasSearched := true
      searchParams := some params
      filters := { stops := none, maxPrice := none, airlines := [] } }
  match searchResult with
  | Except.ok results =>
    let st2 : AppState := { st1 with flights := results }
    if results = [] then
      { st2 with priceData := [], loading := false }
    else
      let st3 : AppState := { st2 with loadingPrices := true }
      let data := extractPriceData results (some params) fetch
      { st3 with priceData := data, loadingPrices := false, loading := false }
  | Except.error err =>
    { st1 with error := some err, flights := [], priceData := [], loading := false }

/-- C8: when the source invocation fails, the orchestrator lands in Ready
(loading false) with empty offers, empty price series, and the thrown
message stored as the readable error state. -/
theorem handleSearch_sourceFails (st : AppState) (params : SearchParams)
    (e : String) (fetch : SearchFetch) :
    (handleSearch st params (Except.error e) fetch).flights = [] ∧
      (handleSearch st params (Except.error e) fetch).priceData = [] ∧
      (handleSearch st params (Except.error e) fetch).error = some e ∧
      (handleSearch st params (Except.error e) fetch).loading = false ∧
      (handleSearch st params (Except.error e) fetch).hasSearched = true :=
  ⟨rfl, rfl, rfl, rfl, rfl⟩

/-! ### Frame property of the aggregator and filter (C9) -/

/-- The two store cells the aggregator touches: the offers it receives
(read-only) and the allDates array it builds and mutates. -/
structure Mem where
  flightsCell : List Flight
  allDatesCell : List PriceDataPoint
deriving Repr

/-- extractPriceData with the store explicit: the input offers are only
read; every write (the pushes of the while loop, the indexed writes of
the gap fill) targets the freshly created allDates array. -/
def extractPriceDataRun (m : Mem) (searchParams : Option SearchParams)
    (fetch : SearchFetch) : List PriceDataPoint × Mem :=
  if m.flightsCell = [] then ([], m)
  else
    let allDates := rangePoints m.flightsCell
    let m1 : Mem := { m with allDatesCell := allDates }
    match searchParams with
    | none => (allDates, m1)
    | some sp =>
      let final := gapFill fetch sp allDates
      (final, { m1 with allDatesCell := final })

/-- C9: neither function mutates its input: the flights cell is identical
after extractPriceDataRun, whose returned series is the pure function of
the inputs; and filterFlights returns an order-preserving sublist of its
input, each retained offer the input offer itself. -/
theorem inputs_never_mutated (m : Mem) (searchParams : Option SearchParams)
    (fetch : SearchFetch) (flights : List Flight) (spec : Filters) :
    (extractPriceDataRun m searchParams fetch).2.flightsCell = m.flightsCell ∧
      (extractPriceDataRun m searchParams fetch).1 =
        extractPriceData m.flightsCell searchParams fetch ∧
      List.Sublist (filterFlights flights spec) flights := by
  refine ⟨?_, ?_, List.filter_sublist flights⟩
  · unfold extractPriceDataRun
    by_cases h : m.flightsCell = []
    · rw [if_pos h]
    · rw [if_neg h]
      cases searchParams with
      | none => rfl
      | some sp => rfl
  · unfold extractPriceDataRun extractPriceData
    by_cases h : m.flightsCell = []
    · rw [if_pos h, if_pos h]
    · rw [if_neg h, if_neg h]
      cases searchParams with
      | none => rfl
      | some sp => rfl
